import Mathlib

/-!
Verification development for the httprobe probing pipeline (src/main.go).

The Go source is shallowly embedded: pure helper functions (extractTitle,
formatOutput, the feeder's probe-token expansion) become Lean functions on
String / List Char; the effectful probe executor (probeURL) is embedded with
the HTTP client abstracted as an oracle; the goroutine/channel shutdown
structure of main is embedded as a happens-before relation generated by the
synchronisation edges present in the code.

Caveat shared by all string definitions: Go indexes strings by byte and
lowercases with full Unicode tables, the embedding indexes by character
(rune) and lowercases ASCII letters only (Lean's Char.toLower).  The two
agree on every string whose characters are single-byte (ASCII), which covers
all inputs considered by the claims.
-/

/-- Go unicode.IsSpace restricted to the ASCII range (space, \t, \n, \v, \f,
\r); this is the whitespace notion used by strings.TrimSpace and
strings.Fields in src/main.go lines 338-340. -/
def goIsSpace (c : Char) : Bool :=
  c = ' ' || c = '\t' || c = '\n' || c = '\x0b' || c = '\x0c' || c = '\r'

/-- Negation of goIsSpace, the predicate selecting characters that belong to a
field of strings.Fields. -/
def notSpace (c : Char) : Bool := !goIsSpace c

/-- Go strings.Index: position of the first occurrence of pat in s, as an
Option instead of -1. -/
def strIndex (pat : List Char) : List Char → Option Nat
  | [] => if pat = [] then some 0 else none
  | c :: rest =>
    if pat.isPrefixOf (c :: rest) then some 0
    else (strIndex pat rest).map (· + 1)

/-- Go strings.TrimSpace: drop leading and trailing whitespace
(src/main.go line 338). -/
def trimSpace (s : List Char) : List Char :=
  ((s.dropWhile goIsSpace).reverse.dropWhile goIsSpace).reverse

/-- Accumulator worker for goFields; cur holds the current in-progress field,
reversed. -/
def fieldsAux (cur : List Char) : List Char → List (List Char)
  | [] => if cur = [] then [] else [cur.reverse]
  | c :: rest =>
    if goIsSpace c then
      if cur = [] then fieldsAux [] rest else cur.reverse :: fieldsAux [] rest
    else fieldsAux (c :: cur) rest

/-- Go strings.Fields: split s around maximal runs of whitespace
(src/main.go line 340). -/
def goFields (s : List Char) : List (List Char) := fieldsAux [] s

/-- Go strings.Join(words, " ") specialised to the single-space separator used
at src/main.go line 340. -/
def joinSp : List (List Char) → List Char
  | [] => []
  | [w] => w
  | w :: x :: ws => w ++ ' ' :: joinSp (x :: ws)

/-- Character-list core of extractTitle (src/main.go lines 327-342): find the
first case-insensitive title-open tag, then the first close tag after it, slice
the ORIGINAL body between them, trim, and collapse internal whitespace runs to
single spaces. -/
def extractTitleL (body : List Char) : List Char :=
  let lower := body.map Char.toLower
  match strIndex ("<title>".toList) lower with
  | none => []
  | some idx =>
    let start := idx + 7
    match strIndex ("</title>".toList) (lower.drop start) with
    | none => []
    | some stop =>
      joinSp (goFields (trimSpace ((body.drop start).take stop)))

/-- extractTitle from src/main.go lines 327-342, on String. -/
def extractTitle (body : String) : String :=
  String.mk (extractTitleL body.toList)

/-- The trim-and-collapse whitespace normalisation that extractTitle applies to
the title slice (src/main.go lines 338-340): TrimSpace, then Fields joined with
single spaces. -/
def normalizeWS (s : String) : String :=
  String.mk (joinSp (goFields (trimSpace s.toList)))

/-- Whether the (lowercased) body contains a title-open tag; extractTitle
returns the empty string whenever it does not (src/main.go lines 329-331). -/
def hasTitleTag (body : String) : Bool :=
  (strIndex ("<title>".toList) (body.toList.map Char.toLower)).isSome

/-- Go strings.ToLower (rune-wise lowercasing, ASCII range as for the rest of
the development), used by the feeder for the input line (src/main.go line 226)
and for the scheme of a probe token (line 263). -/
def goToLower (s : String) : String :=
  String.mk (s.toList.map Char.toLower)

/-- probeResult from src/main.go lines 286-291; status is a Go int. -/
structure probeResult where
  success : Bool
  status : Int
  server : String
  title : String
deriving DecidableEq

/-- The Go zero value probeResult\x7b\x7d that probeURL starts from and returns
unchanged on any error (src/main.go line 294). -/
def zeroProbeResult : probeResult :=
  { success := false, status := 0, server := "", title := "" }

/-- The response data probeURL reads from a completed exchange: status code,
Server header, the at-most-4096-byte body snippet read at src/main.go line 316,
and whether that body read returned without error. -/
structure httpResponse where
  status : Int
  server : String
  bodySnippet : String
  bodyReadOk : Bool

/-- formatOutput from src/main.go lines 344-364: start from the URL and append
each enabled bracketed field in turn, substituting a dash for an empty server
or title. -/
def formatOutput (url : String) (r : probeResult)
    (showStatus showServer showTitle : Bool) : String :=
  let out1 := url
  let out2 := if showStatus then out1 ++ " [" ++ toString r.status ++ "]" else out1
  let out3 :=
    if showServer then out2 ++ " [" ++ (if r.server = "" then "-" else r.server) ++ "]"
    else out2
  if showTitle then out3 ++ " [" ++ (if r.title = "" then "-" else r.title) ++ "]"
  else out3

/-- Modelled from the spec (section 6 Output): the whole line as one
concatenation, the scheme-qualified URL followed by the three optional
bracketed fields in the fixed status, server, title order, each present exactly
when its display flag is enabled, with a dash for empty server or title.  Used
as the refinement target for formatOutput. -/
def formatOutputSpec (url : String) (r : probeResult)
    (showStatus showServer showTitle : Bool) : String :=
  url ++ (if showStatus then " [" ++ toString r.status ++ "]" else "")
      ++ (if showServer then " [" ++ (if r.server = "" then "-" else r.server) ++ "]" else "")
      ++ (if showTitle then " [" ++ (if r.title = "" then "-" else r.title) ++ "]" else "")

/-- probeURL from src/main.go lines 293-325, with the two effectful collaborators
abstracted as oracles: mkReqOk method url tells whether http.NewRequest succeeds
(line 296), and clientDo method url userAgent is the outcome of client.Do
(line 304), none standing for an error.  On either error the zero probeResult is
returned; on success status and Server header are recorded, and the title is
extracted from the bounded body snippet only when needBody is set and the body
read succeeded. -/
def probeURL (mkReqOk : String → String → Bool)
    (clientDo : String → String → String → Option httpResponse)
    (url method userAgent : String) (needBody : Bool) : probeResult :=
  if mkReqOk method url then
    match clientDo method url userAgent with
    | none => zeroProbeResult
    | some resp =>
      { success := true
        status := resp.status
        server := resp.server
        title :=
          if needBody then
            if resp.bodyReadOk then extractTitle resp.bodySnippet else ""
          else "" }
  else zeroProbeResult

/-- The two submission streams a feeder token can be routed to: httpsURLs or
httpURLs (src/main.go lines 146-147). -/
inductive Chan where
  | https
  | http
deriving DecidableEq

/-- Go strings.SplitN(p, sep, 2) at src/main.go line 254, on characters: none
when p contains no colon, otherwise the part before the first colon and
everything after it. -/
def splitFirstColon : List Char → Option (List Char × List Char)
  | [] => none
  | c :: rest =>
    if c = ':' then some ([], rest)
    else (splitFirstColon rest).map (fun q => (c :: q.1, q.2))

/-- Number of colons in a token, used to state the spec's "exactly one
separator" condition. -/
def colonCount (s : String) : Nat :=
  (s.toList.filter (fun c => c = ':')).length

/-- The xlarge port template from src/main.go line 234. -/
def xlargePorts : List String :=
  ["81", "300", "591", "593", "832", "981", "1010", "1311", "2082", "2087",
   "2095", "2096", "2480", "3000", "3128", "3333", "4243", "4567", "4711",
   "4712", "4993", "5000", "5104", "5108", "5800", "6543", "7000", "7396",
   "7474", "8000", "8001", "8008", "8014", "8042", "8069", "8080", "8081",
   "8088", "8090", "8091", "8118", "8123", "8172", "8222", "8243", "8280",
   "8281", "8333", "8443", "8500", "8834", "8880", "8888", "8983", "9000",
   "9043", "9060", "9080", "9090", "9091", "9200", "9443", "9800", "9981",
   "12443", "16080", "18091", "18092", "20720", "28017"]

/-- The large port template from src/main.go line 235. -/
def largePorts : List String :=
  ["81", "591", "2082", "2087", "2095", "2096", "3000", "8000", "8001",
   "8008", "8080", "8083", "8443", "8834", "8888"]

/-- The small port template from src/main.go line 236. -/
def smallPorts : List String :=
  ["7000", "7001", "8000", "8001", "8008", "8080", "8083", "8443", "8834",
   "8888", "10000"]

/-- Expansion of one extra-probe token for one domain, the switch at
src/main.go lines 239-268: the three named templates expand to one HTTPS
submission per port; any other token is split at its first colon (SplitN with
limit 2), skipped when it has no colon, routed to httpsURLs when the
lowercased scheme part is https and to httpURLs otherwise, the submission
being domain:port where port is everything after the first colon. -/
def expandProbe (domain p : String) : List (Chan × String) :=
  if p = "xlarge" then xlargePorts.map (fun port => (Chan.https, domain ++ ":" ++ port))
  else if p = "large" then largePorts.map (fun port => (Chan.https, domain ++ ":" ++ port))
  else if p = "small" then smallPorts.map (fun port => (Chan.https, domain ++ ":" ++ port))
  else
    match splitFirstColon p.toList with
    | none => []
    | some q =>
      if goToLower (String.mk q.1) = "https" then
        [(Chan.https, domain ++ ":" ++ String.mk q.2)]
      else
        [(Chan.http, domain ++ ":" ++ String.mk q.2)]

/-- The configuration surface of main that the embedded pipeline depends on.
concurrency is the -c flag (the Go flag is an int; the model covers the
nonnegative values, the flag's meaningful range). -/
structure Config where
  concurrency : Nat
  skipDefault : Bool
  preferHTTPS : Bool
  probes : List String
  showStatus : Bool
  showServer : Bool
  showTitle : Bool

/-- Submissions generated for one stdin line by the feeder loop at
src/main.go lines 225-270: the line is lowercased, submitted to httpsURLs
unless -s is set, then each extra-probe token is expanded in order. -/
def feedLine (cfg : Config) (line : String) : List (Chan × String) :=
  let domain := goToLower line
  (if cfg.skipDefault then [] else [(Chan.https, domain)])
    ++ cfg.probes.flatMap (expandProbe domain)

/-- All submissions generated by the feeder for the whole input. -/
def feedLines (cfg : Config) (lines : List String) : List (Chan × String) :=
  lines.flatMap (feedLine cfg)

/-- The submissions of a feed that are routed to a given stream. -/
def subsFor (ch : Chan) (subs : List (Chan × String)) : List String :=
  (subs.filter (fun s => s.1 = ch)).map (fun s => s.2)

/-- Body of one HTTPS worker iteration, src/main.go lines 156-174: probe
https://u; on success emit one formatted line and, when -prefer-https is set,
stop (continue); otherwise (failure, or success without the preference)
forward u unchanged to httpURLs.  The probe oracle stands for probeURL with
the client, method, user agent and needBody already fixed by main.  Returns
the emitted output lines and the optionally forwarded submission. -/
def httpsWorkerStep (cfg : Config) (probe : String → probeResult)
    (u : String) : List String × Option String :=
  let withProto := "https://" ++ u
  let result := probe withProto
  if result.success then
    if cfg.preferHTTPS then
      ([formatOutput withProto result cfg.showStatus cfg.showServer cfg.showTitle], none)
    else
      ([formatOutput withProto result cfg.showStatus cfg.showServer cfg.showTitle], some u)
  else ([], some u)

/-- Body of one HTTP worker iteration, src/main.go lines 186-195: probe
http://u and on success emit one formatted line; HTTP is terminal, nothing is
forwarded. -/
def httpWorkerStep (cfg : Config) (probe : String → probeResult)
    (u : String) : List String :=
  let withProto := "http://" ++ u
  let result := probe withProto
  if result.success then
    [formatOutput withProto result cfg.showStatus cfg.showServer cfg.showTitle]
  else []

/-- Number of HTTPS workers started by the loop at src/main.go line 152:
concurrency / 2 iterations (integer division). -/
def numHTTPSWorkers (concurrency : Nat) : Nat := concurrency / 2

/-- Number of HTTP workers started by the loop at src/main.go line 182:
concurrency / 2 iterations (integer division). -/
def numHTTPWorkers (concurrency : Nat) : Nat := concurrency / 2

/-- What a pool of n workers consumes from its (eventually closed) input
stream: a nonempty pool drains every submission; an empty pool consumes
nothing, so the submissions are never received by anyone. -/
def poolConsume (n : Nat) (xs : List α) : List α :=
  if n = 0 then [] else xs

/-- One sequential run of the whole pipeline (src/main.go main): the feeder's
submissions are split between the two streams, the HTTPS pool consumes its
stream performing httpsWorkerStep on each submission, the forwarded
submissions together with the feeder's direct-to-HTTP submissions are consumed
by the HTTP pool.  Real runs interleave the output lines nondeterministically;
this run realises one interleaving, and is used for claims (such as emptiness
of the output) that hold in every interleaving exactly when they hold here. -/
def pipelineRun (cfg : Config) (probe : String → probeResult)
    (lines : List String) : List String :=
  let subs := feedLines cfg lines
  let consumedHTTPS := poolConsume (numHTTPSWorkers cfg.concurrency) (subsFor Chan.https subs)
  let stepped := consumedHTTPS.map (httpsWorkerStep cfg probe)
  let httpsOutputs := stepped.flatMap (fun s => s.1)
  let forwarded := stepped.filterMap (fun s => s.2)
  let consumedHTTP :=
    poolConsume (numHTTPWorkers cfg.concurrency) (forwarded ++ subsFor Chan.http subs)
  httpsOutputs ++ consumedHTTP.flatMap (httpWorkerStep cfg probe)

/-- The URLs actually probed in a pipelineRun, in the same sequential
abstraction: https://u for every HTTPS-pool submission consumed, http://u for
every HTTP-pool submission consumed. -/
def pipelineProbedURLs (cfg : Config) (probe : String → probeResult)
    (lines : List String) : List String :=
  let subs := feedLines cfg lines
  let consumedHTTPS := poolConsume (numHTTPSWorkers cfg.concurrency) (subsFor Chan.https subs)
  let stepped := consumedHTTPS.map (httpsWorkerStep cfg probe)
  let forwarded := stepped.filterMap (fun s => s.2)
  let consumedHTTP :=
    poolConsume (numHTTPWorkers cfg.concurrency) (forwarded ++ subsFor Chan.http subs)
  consumedHTTPS.map (fun u => "https://" ++ u)
    ++ consumedHTTP.map (fun u => "http://" ++ u)

/-- The synchronisation events of main relevant to the shutdown of the
httpURLs stream. -/
inductive PipelineEvent where
  | feederSendHTTP
  | feederDone
  | closeHTTPSChan
  | httpsWorkerExit (i : Nat)
  | closeHTTPChan
deriving DecidableEq

/-- Happens-before relation generated by the synchronisation edges of main for
a run with n HTTPS workers.  Edges, each justified by one construct of
src/main.go: the feeder's direct sends on httpURLs (line 266) precede the end
of the feeder loop (program order of the main goroutine); close(httpsURLs) at
line 275 follows the feeder loop (program order); a worker's range loop over
httpsURLs (line 156) terminates only after close(httpsURLs), so each worker
exit (line 176) follows it; close(httpURLs) at line 204 follows
httpsWG.Wait() at line 203, which returns only after every started worker has
called Done.  With n = 0 the Wait is immediate and contributes no edge. -/
inductive happensBefore (n : Nat) : PipelineEvent → PipelineEvent → Prop
  | feederSend_done :
      happensBefore n PipelineEvent.feederSendHTTP PipelineEvent.feederDone
  | done_closeHTTPS :
      happensBefore n PipelineEvent.feederDone PipelineEvent.closeHTTPSChan
  | closeHTTPS_exit (i : Nat) (h : i < n) :
      happensBefore n PipelineEvent.closeHTTPSChan (PipelineEvent.httpsWorkerExit i)
  | exit_closeHTTP (i : Nat) (h : i < n) :
      happensBefore n (PipelineEvent.httpsWorkerExit i) PipelineEvent.closeHTTPChan
  | trans {a b c : PipelineEvent} :
      happensBefore n a b → happensBefore n b c → happensBefore n a c

theorem string_append_empty (s : String) : s ++ "" = s := by
  cases s with
  | mk data => show String.mk (data ++ []) = String.mk data; rw [List.append_nil]

/-- C1: for every Submission u received by an HTTPS worker: when the https
probe succeeds the worker emits exactly one output line, and with
prefer-HTTPS enabled nothing is forwarded to the HTTP stream (so no HTTP
probe is attempted for u); when the probe fails, or succeeds with
prefer-HTTPS disabled, exactly the submission u is forwarded unchanged onto
the HTTP input stream. -/
theorem c1_https_worker_cascade (cfg : Config) (probe : String → probeResult)
    (u : String) :
    ((probe ("https://" ++ u)).success = true →
      (httpsWorkerStep cfg probe u).1.length = 1) ∧
    ((probe ("https://" ++ u)).success = true → cfg.preferHTTPS = true →
      (httpsWorkerStep cfg probe u).2 = none) ∧
    ((probe ("https://" ++ u)).success = false ∨
        ((probe ("https://" ++ u)).success = true ∧ cfg.preferHTTPS = false) →
      (httpsWorkerStep cfg probe u).2 = some u) := by
  unfold httpsWorkerStep
  rcases hs : (probe ("https://" ++ u)).success <;>
    rcases hp : cfg.preferHTTPS <;>
      simp [hs, hp]

/-- Closed instance of c1_https_worker_cascade: with a probe oracle that
succeeds, prefer-HTTPS enabled emits one line and forwards nothing. -/
theorem c1_https_worker_cascade_witness :
    (httpsWorkerStep
        { concurrency := 20, skipDefault := false, preferHTTPS := true,
          probes := [], showStatus := false, showServer := false,
          showTitle := false }
        (fun _ => { success := true, status := 200, server := "", title := "" })
        "example.com").1.length = 1 ∧
    (httpsWorkerStep
        { concurrency := 20, skipDefault := false, preferHTTPS := true,
          probes := [], showStatus := false, showServer := false,
          showTitle := false }
        (fun _ => { success := true, status := 200, server := "", title := "" })
        "example.com").2 = none := by
  have h := c1_https_worker_cascade
    { concurrency := 20, skipDefault := false, preferHTTPS := true,
      probes := [], showStatus := false, showServer := false,
      showTitle := false }
    (fun _ => { success := true, status := 200, server := "", title := "" })
    "example.com"
  exact ⟨h.1 rfl, h.2.1 rfl rfl⟩

/-- C5: whenever either oracle reports an error (request construction failure
or client error), probeURL returns the zero probeResult: success false,
status 0, empty server, empty title. -/
theorem c5_probe_error_zero_result (mkReqOk : String → String → Bool)
    (clientDo : String → String → String → Option httpResponse)
    (url method userAgent : String) (needBody : Bool)
    (h : mkReqOk method url = false ∨ clientDo method url userAgent = none) :
    probeURL mkReqOk clientDo url method userAgent needBody =
      { success := false, status := 0, server := "", title := "" } := by
  rcases h with h | h <;> simp [probeURL, h, zeroProbeResult]

/-- Closed instance of c5_probe_error_zero_result at a failing client. -/
theorem c5_probe_error_zero_result_witness :
    probeURL (fun _ _ => true) (fun _ _ _ => none)
        "https://example.com" "GET" "httprobe" true =
      { success := false, status := 0, server := "", title := "" } :=
  c5_probe_error_zero_result (fun _ _ => true) (fun _ _ _ => none)
    "https://example.com" "GET" "httprobe" true (Or.inr rfl)

/-- C8: the emitted line of formatOutput is exactly the scheme-qualified URL
followed by the optional bracketed status, server and title fields in that
fixed order, each present exactly when its display flag is enabled, an empty
server or title rendered as a dash: formatOutput agrees with the
specification-shaped formatOutputSpec on all inputs. -/
theorem c8_format_output_fixed_order (url : String) (r : probeResult)
    (showStatus showServer showTitle : Bool) :
    formatOutput url r showStatus showServer showTitle =
      formatOutputSpec url r showStatus showServer showTitle := by
  rcases showStatus <;> rcases showServer <;> rcases showTitle <;>
    simp [formatOutput, formatOutputSpec, string_append_empty, ← String.append_assoc]

theorem splitFirstColon_eq_none_of_no_colon :
    ∀ l : List Char, (l.filter (fun c => c = ':')).length = 0 →
      splitFirstColon l = none := by
  intro l
  induction l with
  | nil => intro _; rfl
  | cons c rest ih =>
    intro h
    by_cases hc : c = ':'
    · simp [List.filter_cons, hc] at h
    · simp only [List.filter_cons, hc, decide_False] at h
      simp [splitFirstColon, hc, ih h]

theorem splitFirstColon_isSome_of_colon :
    ∀ l : List Char, 1 ≤ (l.filter (fun c => c = ':')).length →
      (splitFirstColon l).isSome = true := by
  intro l
  induction l with
  | nil => intro h; simp at h
  | cons c rest ih =>
    intro h
    by_cases hc : c = ':'
    · simp [splitFirstColon, hc]
    · simp only [List.filter_cons, hc, decide_False] at h
      simp [splitFirstColon, hc, ih h]

/-- C3 counterexample: the token a:b:c is not a named set and does not contain
exactly one colon separator (it contains two), yet it is not skipped: it
produces the submission example.com:b:c on the HTTP input stream. -/
theorem c3_counterexample :
    colonCount "a:b:c" ≠ 1 ∧
    "a:b:c" ≠ "xlarge" ∧ "a:b:c" ≠ "large" ∧ "a:b:c" ≠ "small" ∧
    expandProbe "example.com" "a:b:c" = [(Chan.http, "example.com:b:c")] := by
  decide

/-- C3 amended: for every extra-probe token that is not one of the named sets
(small, large, xlarge): if the token contains no ':' separator it is silently
skipped, producing no submissions and no error output; every token containing
at least one ':' is split at its first ':' and produces exactly one
submission. -/
theorem c3_amended_malformed_token_skipped (domain p : String)
    (h1 : p ≠ "xlarge") (h2 : p ≠ "large") (h3 : p ≠ "small") :
    (colonCount p = 0 → expandProbe domain p = []) ∧
    (1 ≤ colonCount p → (expandProbe domain p).length = 1) := by
  constructor
  · intro h
    have hs := splitFirstColon_eq_none_of_no_colon p.toList h
    simp only [String.toList] at hs
    simp [expandProbe, h1, h2, h3, hs]
  · intro h
    have hs := splitFirstColon_isSome_of_colon p.toList h
    simp only [expandProbe, h1, h2, h3, if_false]
    split
    · rename_i heq
      rw [heq] at hs
      simp at hs
    · split <;> simp

/-- Closed instance of c3_amended_malformed_token_skipped: the separator-free
token bogus produces no submissions. -/
theorem c3_amended_witness :
    expandProbe "example.com" "bogus" = [] :=
  (c3_amended_malformed_token_skipped "example.com" "bogus"
    (by decide) (by decide) (by decide)).1 (by decide)

/-- C4: an accepted scheme:port token whose scheme lowercases to https routes
domain:port to the HTTPS input stream; a token with any other scheme
(including a literal http:port) routes domain:port directly to the HTTP input
stream and produces no HTTPS submission. -/
theorem c4_token_scheme_routing (domain p : String)
    (scheme port : List Char)
    (h1 : p ≠ "xlarge") (h2 : p ≠ "large") (h3 : p ≠ "small")
    (hs : splitFirstColon p.toList = some (scheme, port)) :
    (goToLower (String.mk scheme) = "https" →
      expandProbe domain p = [(Chan.https, domain ++ ":" ++ String.mk port)]) ∧
    (goToLower (String.mk scheme) ≠ "https" →
      expandProbe domain p = [(Chan.http, domain ++ ":" ++ String.mk port)]) := by
  have hs2 : splitFirstColon p.data = some (scheme, port) := hs
  constructor <;> intro hl <;> simp [expandProbe, h1, h2, h3, hs2, hl]

/-- Closed instance of c4_token_scheme_routing: https:8443 goes to the HTTPS
stream, http:81 goes directly to the HTTP stream. -/
theorem c4_token_scheme_routing_witness :
    expandProbe "example.com" "https:8443" = [(Chan.https, "example.com:8443")] ∧
    expandProbe "example.com" "http:81" = [(Chan.http, "example.com:81")] := by
  constructor
  · exact (c4_token_scheme_routing "example.com" "https:8443"
      "https".toList "8443".toList
      (by decide) (by decide) (by decide) (by decide)).1 (by decide)
  · exact (c4_token_scheme_routing "example.com" "http:81"
      "http".toList "81".toList
      (by decide) (by decide) (by decide) (by decide)).2 (by decide)

/-- C9: both worker-pool start loops run exactly concurrency / 2 times
(integer division); concurrency 1 starts zero workers in each pool, and a
pipeline configured with concurrency 1 probes no URL and produces no output
line, whatever the input and probe outcomes. -/
theorem c9_worker_counts (cfg : Config) (probe : String → probeResult)
    (lines : List String) (h : cfg.concurrency = 1) :
    (∀ c : Nat, numHTTPSWorkers c = c / 2 ∧ numHTTPWorkers c = c / 2) ∧
    numHTTPSWorkers 1 = 0 ∧ numHTTPWorkers 1 = 0 ∧
    pipelineRun cfg probe lines = [] ∧
    pipelineProbedURLs cfg probe lines = [] := by
  refine ⟨fun c => ⟨rfl, rfl⟩, rfl, rfl, ?_, ?_⟩ <;>
    simp [pipelineRun, pipelineProbedURLs, h, numHTTPSWorkers, numHTTPWorkers,
      poolConsume]

/-- Closed instance of c9_worker_counts: a concurrency-1 run over one input
line with an always-successful probe oracle produces no output and probes
nothing. -/
theorem c9_worker_counts_witness :
    pipelineRun
        { concurrency := 1, skipDefault := false, preferHTTPS := false,
          probes := [], showStatus := false, showServer := false,
          showTitle := false }
        (fun _ => { success := true, status := 200, server := "", title := "" })
        ["example.com"] = [] ∧
    pipelineProbedURLs
        { concurrency := 1, skipDefault := false, preferHTTPS := false,
          probes := [], showStatus := false, showServer := false,
          showTitle := false }
        (fun _ => { success := true, status := 200, server := "", title := "" })
        ["example.com"] = [] := by
  have h := c9_worker_counts
    { concurrency := 1, skipDefault := false, preferHTTPS := false,
      probes := [], showStatus := false, showServer := false,
      showTitle := false }
    (fun _ => { success := true, status := 200, server := "", title := "" })
    ["example.com"] rfl
  exact ⟨h.2.2.2.1, h.2.2.2.2⟩

/-- C10: whenever default probing is not suppressed, the first submission the
feeder produces for an input line is exactly the lowercased line, unchanged,
on the HTTPS input stream, for every line including the empty and
whitespace-only ones (no filtering, no trimming); consequently the empty
input line leads the HTTPS pool to probe the URL https:// with empty host. -/
theorem c10_every_line_submitted (cfg : Config) (line : String)
    (h : cfg.skipDefault = false) :
    (feedLine cfg line).head? = some (Chan.https, goToLower line) ∧
    (∀ probe : String → probeResult,
      (pipelineProbedURLs
          { concurrency := 20, skipDefault := false, preferHTTPS := false,
            probes := [], showStatus := false, showServer := false,
            showTitle := false }
          probe [""]).head? = some "https://") := by
  constructor
  · simp [feedLine, h]
  · intro probe
    simp [pipelineProbedURLs, feedLines, feedLine, goToLower, expandProbe,
      subsFor, poolConsume, numHTTPSWorkers, numHTTPWorkers, string_append_empty]

/-- Closed instance of c10_every_line_submitted: a whitespace-only line is
submitted as itself (lowercasing preserves it) and an uppercase line is
submitted lowercased, both unchanged otherwise. -/
theorem c10_every_line_submitted_witness :
    (feedLine
        { concurrency := 20, skipDefault := false, preferHTTPS := false,
          probes := ["http:81"], showStatus := false, showServer := false,
          showTitle := false } "  ").head? = some (Chan.https, "  ") := by
  have h := (c10_every_line_submitted
    { concurrency := 20, skipDefault := false, preferHTTPS := false,
      probes := ["http:81"], showStatus := false, showServer := false,
      showTitle := false } "  " rfl).1
  rw [h]
  decide

theorem happensBefore_zero_ends (a b : PipelineEvent)
    (h : happensBefore 0 a b) :
    b = PipelineEvent.feederDone ∨ b = PipelineEvent.closeHTTPSChan := by
  induction h with
  | feederSend_done => exact Or.inl rfl
  | done_closeHTTPS => exact Or.inr rfl
  | closeHTTPS_exit i hi => exact absurd hi (Nat.not_lt_zero i)
  | exit_closeHTTP i hi => exact absurd hi (Nat.not_lt_zero i)
  | trans h1 h2 ih1 ih2 => exact ih2

/-- C2 counterexample: with concurrency 1 the HTTPS pool is empty, and the
synchronisation structure of main orders close(httpURLs) after nothing the
feeder does: the close of the HTTP input stream is NOT ordered after the
feeder's direct-to-HTTP sends (nor, vacuously nontrivially, after any worker),
so the invariant claimed for every configured concurrency fails at
concurrency 1. -/
theorem c2_counterexample :
    ¬ (happensBefore (numHTTPSWorkers 1) PipelineEvent.feederSendHTTP
          PipelineEvent.closeHTTPChan ∧
       ∀ i, i < numHTTPSWorkers 1 →
          happensBefore (numHTTPSWorkers 1) (PipelineEvent.httpsWorkerExit i)
            PipelineEvent.closeHTTPChan) := by
  intro h
  have hn : numHTTPSWorkers 1 = 0 := rfl
  rw [hn] at h
  rcases happensBefore_zero_ends _ _ h.1 with h2 | h2 <;> exact
    PipelineEvent.noConfusion h2

/-- C2 amended: for every configured concurrency of at least 2 (so that the
HTTPS pool is nonempty), the HTTP input stream is closed only after every
task that might send on it has terminated: the close is ordered after the
feeder's direct-to-HTTP sends and after the exit of every HTTPS worker, so no
send on the HTTP input stream occurs at or after its close. -/
theorem c2_amended_close_after_producers (c : Nat) (h : 2 ≤ c) :
    happensBefore (numHTTPSWorkers c) PipelineEvent.feederSendHTTP
      PipelineEvent.closeHTTPChan ∧
    ∀ i, i < numHTTPSWorkers c →
      happensBefore (numHTTPSWorkers c) (PipelineEvent.httpsWorkerExit i)
        PipelineEvent.closeHTTPChan := by
  have hn : 0 < numHTTPSWorkers c := by
    unfold numHTTPSWorkers
    omega
  refine ⟨?_, fun i hi => happensBefore.exit_closeHTTP i hi⟩
  exact happensBefore.trans
    (happensBefore.trans
      (happensBefore.trans happensBefore.feederSend_done
        happensBefore.done_closeHTTPS)
      (happensBefore.closeHTTPS_exit 0 hn))
    (happensBefore.exit_closeHTTP 0 hn)

/-- Closed instance of c2_amended_close_after_producers at concurrency 2. -/
theorem c2_amended_witness :
    happensBefore (numHTTPSWorkers 2) PipelineEvent.feederSendHTTP
      PipelineEvent.closeHTTPChan :=
  (c2_amended_close_after_producers 2 (by decide)).1

theorem takeWhile_eq_self_of_all {α : Type} (p : α → Bool) :
    ∀ w : List α, (∀ c ∈ w, p c = true) → w.takeWhile p = w := by
  intro w
  induction w with
  | nil => intro _; rfl
  | cons d w' ih =>
    intro h
    have hd : p d = true := h d (List.mem_cons_self d w')
    simp [List.takeWhile_cons, hd, ih fun c hc => h c (List.mem_cons_of_mem d hc)]

theorem dropWhile_eq_nil_of_all {α : Type} (p : α → Bool) :
    ∀ w : List α, (∀ c ∈ w, p c = true) → w.dropWhile p = [] := by
  intro w
  induction w with
  | nil => intro _; rfl
  | cons d w' ih =>
    intro h
    have hd : p d = true := h d (List.mem_cons_self d w')
    simp [List.dropWhile_cons, hd, ih fun c hc => h c (List.mem_cons_of_mem d hc)]

theorem all_of_dropWhile_eq_nil {α : Type} (p : α → Bool) :
    ∀ w : List α, w.dropWhile p = [] → ∀ c ∈ w, p c = true := by
  intro w h c hc
  rw [List.dropWhile_eq_nil_iff] at h
  exact h c hc

theorem takeWhile_append_all {α : Type} (p : α → Bool) :
    ∀ w s : List α, (∀ c ∈ w, p c = true) →
      (w ++ s).takeWhile p = w ++ s.takeWhile p := by
  intro w
  induction w with
  | nil => intro s _; rfl
  | cons d w' ih =>
    intro s h
    have hd : p d = true := h d (List.mem_cons_self d w')
    simp [List.takeWhile_cons, hd, ih s fun c hc => h c (List.mem_cons_of_mem d hc)]

theorem dropWhile_append_all {α : Type} (p : α → Bool) :
    ∀ w s : List α, (∀ c ∈ w, p c = true) →
      (w ++ s).dropWhile p = s.dropWhile p := by
  intro w
  induction w with
  | nil => intro s _; rfl
  | cons d w' ih =>
    intro s h
    have hd : p d = true := h d (List.mem_cons_self d w')
    simp [List.dropWhile_cons, hd, ih s fun c hc => h c (List.mem_cons_of_mem d hc)]

theorem takeWhile_append_stop {α : Type} (p : α → Bool) :
    ∀ w s : List α, w.dropWhile p ≠ [] →
      (w ++ s).takeWhile p = w.takeWhile p := by
  intro w
  induction w with
  | nil => intro s h; exact absurd rfl h
  | cons d w' ih =>
    intro s h
    by_cases hd : p d = true
    · simp only [List.dropWhile_cons, hd, if_true] at h
      simp [List.takeWhile_cons, hd, ih s h]
    · have hd2 : p d = false := by rcases hp : p d with _ | _; rfl; exact absurd hp hd
      simp [List.takeWhile_cons, hd2]

theorem dropWhile_append_stop {α : Type} (p : α → Bool) :
    ∀ w s : List α, w.dropWhile p ≠ [] →
      (w ++ s).dropWhile p = w.dropWhile p ++ s := by
  intro w
  induction w with
  | nil => intro s h; exact absurd rfl h
  | cons d w' ih =>
    intro s h
    by_cases hd : p d = true
    · simp only [List.dropWhile_cons, hd, if_true] at h
      simp [List.dropWhile_cons, hd, ih s h]
    · have hd2 : p d = false := by rcases hp : p d with _ | _; rfl; exact absurd hp hd
      simp [List.dropWhile_cons, hd2]

theorem mem_takeWhile_pred {α : Type} (p : α → Bool) :
    ∀ w : List α, ∀ c ∈ w.takeWhile p, p c = true := by
  intro w
  induction w with
  | nil => intro c hc; simp at hc
  | cons d w' ih =>
    intro c hc
    by_cases hd : p d = true
    · simp only [List.takeWhile_cons, hd, if_true] at hc
      rcases List.mem_cons.mp hc with hc | hc
      · rw [hc]; exact hd
      · exact ih c hc
    · have hd2 : p d = false := by rcases hp : p d with _ | _; rfl; exact absurd hp hd
      simp [List.takeWhile_cons, hd2] at hc

theorem goFields_cons_space (d : Char) (t : List Char) (hd : goIsSpace d = true) :
    goFields (d :: t) = goFields t := by
  simp [goFields, fieldsAux, hd]

theorem fieldsAux_word :
    ∀ (s cur : List Char), cur ≠ [] →
      fieldsAux cur s =
        (cur.reverse ++ s.takeWhile notSpace) :: goFields (s.dropWhile notSpace) := by
  intro s
  induction s with
  | nil =>
    intro cur hcur
    simp [fieldsAux, hcur, goFields]
  | cons d t ih =>
    intro cur hcur
    by_cases hd : goIsSpace d = true
    · have hns : notSpace d = false := by simp [notSpace, hd]
      simp [fieldsAux, hd, hcur, List.takeWhile_cons, List.dropWhile_cons, hns,
        goFields_cons_space d t hd, goFields]
    · have hd2 : goIsSpace d = false := by
        rcases hp : goIsSpace d with _ | _; rfl; exact absurd hp hd
      have hns : notSpace d = true := by simp [notSpace, hd2]
      have step : fieldsAux cur (d :: t) = fieldsAux (d :: cur) t := by
        simp [fieldsAux, hd2]
      rw [step, ih (d :: cur) (List.cons_ne_nil d cur)]
      simp [List.takeWhile_cons, List.dropWhile_cons, hns]

theorem goFields_cons_word (d : Char) (t : List Char) (hd : goIsSpace d = false) :
    goFields (d :: t) =
      (d :: t.takeWhile notSpace) :: goFields (t.dropWhile notSpace) := by
  have step : goFields (d :: t) = fieldsAux [d] t := by
    simp [goFields, fieldsAux, hd]
  rw [step, fieldsAux_word t [d] (List.cons_ne_nil d [])]
  rfl

theorem length_dropWhile_le_self {α : Type} (p : α → Bool) :
    ∀ w : List α, (w.dropWhile p).length ≤ w.length := by
  intro w
  induction w with
  | nil => exact Nat.le_refl 0
  | cons d w' ih =>
    by_cases hd : p d = true
    · simp only [List.dropWhile_cons, hd, if_true]
      exact Nat.le_trans ih (Nat.le_succ _)
    · have hd2 : p d = false := by rcases hp : p d with _ | _; rfl; exact absurd hp hd
      simp [List.dropWhile_cons, hd2]

theorem mem_goFields_aux :
    ∀ (n : Nat) (s : List Char), s.length ≤ n →
      ∀ w ∈ goFields s, w ≠ [] ∧ ∀ c ∈ w, notSpace c = true := by
  intro n
  induction n with
  | zero =>
    intro s hs w hw
    rw [List.length_eq_zero.mp (Nat.le_zero.mp hs)] at hw
    simp [goFields, fieldsAux] at hw
  | succ n ih =>
    intro s hs w hw
    rcases s with _ | ⟨d, t⟩
    · simp [goFields, fieldsAux] at hw
    · by_cases hd : goIsSpace d = true
      · rw [goFields_cons_space d t hd] at hw
        exact ih t (Nat.le_of_succ_le_succ hs) w hw
      · have hd2 : goIsSpace d = false := by
          rcases hp : goIsSpace d with _ | _; rfl; exact absurd hp hd
        rw [goFields_cons_word d t hd2] at hw
        rcases List.mem_cons.mp hw with hw | hw
        · constructor
          · rw [hw]; exact List.cons_ne_nil _ _
          · intro c hc
            rw [hw] at hc
            rcases List.mem_cons.mp hc with hc | hc
            · rw [hc]; simp [notSpace, hd2]
            · exact mem_takeWhile_pred notSpace t c hc
        · exact ih (t.dropWhile notSpace)
            (Nat.le_trans (length_dropWhile_le_self notSpace t)
              (Nat.le_of_succ_le_succ hs)) w hw

theorem mem_goFields (s : List Char) :
    ∀ w ∈ goFields s, w ≠ [] ∧ ∀ c ∈ w, notSpace c = true :=
  mem_goFields_aux s.length s (Nat.le_refl _)

theorem goFields_all_space :
    ∀ t : List Char, (∀ c ∈ t, goIsSpace c = true) → goFields t = [] := by
  intro t
  induction t with
  | nil => intro _; rfl
  | cons d t' ih =>
    intro h
    rw [goFields_cons_space d t' (h d (List.mem_cons_self d t'))]
    exact ih fun c hc => h c (List.mem_cons_of_mem d hc)

theorem goFields_append_spaces_aux :
    ∀ (n : Nat) (s : List Char), s.length ≤ n →
      ∀ t : List Char, (∀ c ∈ t, goIsSpace c = true) →
        goFields (s ++ t) = goFields s := by
  intro n
  induction n with
  | zero =>
    intro s hs t ht
    rw [List.length_eq_zero.mp (Nat.le_zero.mp hs), List.nil_append,
      goFields_all_space t ht]
    rfl
  | succ n ih =>
    intro s hs t ht
    rcases s with _ | ⟨d, s'⟩
    · rw [List.nil_append, goFields_all_space t ht]
      rfl
    · by_cases hd : goIsSpace d = true
      · rw [List.cons_append, goFields_cons_space d (s' ++ t) hd,
          goFields_cons_space d s' hd]
        exact ih s' (Nat.le_of_succ_le_succ hs) t ht
      · have hd2 : goIsSpace d = false := by
          rcases hp : goIsSpace d with _ | _; rfl; exact absurd hp hd
        rw [List.cons_append, goFields_cons_word d (s' ++ t) hd2,
          goFields_cons_word d s' hd2]
        have htns : ∀ c ∈ t, notSpace c = false := by
          intro c hc
          simp [notSpace, ht c hc]
        by_cases hall : s'.dropWhile notSpace = []
        · have hallp : ∀ c ∈ s', notSpace c = true :=
            all_of_dropWhile_eq_nil notSpace s' hall
          have h1 : (s' ++ t).takeWhile notSpace = s' := by
            rw [takeWhile_append_all notSpace s' t hallp]
            rcases t with _ | ⟨e, t'⟩
            · simp
            · simp [List.takeWhile_cons, htns e (List.mem_cons_self e t')]
          have h2 : (s' ++ t).dropWhile notSpace = t := by
            rw [dropWhile_append_all notSpace s' t hallp]
            rcases t with _ | ⟨e, t'⟩
            · rfl
            · simp [List.dropWhile_cons, htns e (List.mem_cons_self e t')]
          rw [h1, h2, goFields_all_space t ht,
            takeWhile_eq_self_of_all notSpace s' hallp, hall]
          rfl
        · rw [takeWhile_append_stop notSpace s' t hall,
            dropWhile_append_stop notSpace s' t hall]
          rw [ih (s'.dropWhile notSpace)
            (Nat.le_trans (length_dropWhile_le_self notSpace s')
              (Nat.le_of_succ_le_succ hs)) t ht]

theorem goFields_append_spaces (s t : List Char)
    (ht : ∀ c ∈ t, goIsSpace c = true) : goFields (s ++ t) = goFields s :=
  goFields_append_spaces_aux s.length s (Nat.le_refl _) t ht

theorem goFields_dropWhile_space :
    ∀ s : List Char, goFields (s.dropWhile goIsSpace) = goFields s := by
  intro s
  induction s with
  | nil => rfl
  | cons d t ih =>
    by_cases hd : goIsSpace d = true
    · rw [List.dropWhile_cons, if_pos hd, ih, goFields_cons_space d t hd]
    · have hd2 : goIsSpace d = false := by
        rcases hp : goIsSpace d with _ | _; rfl; exact absurd hp hd
      rw [List.dropWhile_cons, if_neg (by simp [hd2])]

theorem trimSpace_decomp (s : List Char) :
    ∃ t, s.dropWhile goIsSpace = trimSpace s ++ t ∧
      ∀ c ∈ t, goIsSpace c = true := by
  refine ⟨((s.dropWhile goIsSpace).reverse.takeWhile goIsSpace).reverse, ?_, ?_⟩
  · unfold trimSpace
    rw [← List.reverse_append, List.takeWhile_append_dropWhile,
      List.reverse_reverse]
  · intro c hc
    exact mem_takeWhile_pred goIsSpace (s.dropWhile goIsSpace).reverse c
      (List.mem_reverse.mp hc)

theorem goFields_trimSpace (s : List Char) :
    goFields (trimSpace s) = goFields s := by
  rcases trimSpace_decomp s with ⟨t, ht, hall⟩
  rw [← goFields_dropWhile_space s, ht, goFields_append_spaces _ t hall]

theorem goFields_joinSp :
    ∀ L : List (List Char),
      (∀ w ∈ L, w ≠ [] ∧ ∀ c ∈ w, notSpace c = true) →
      goFields (joinSp L) = L := by
  intro L
  induction L with
  | nil => intro _; rfl
  | cons w L' ih =>
    intro h
    rcases h w (List.mem_cons_self w L') with ⟨hw, hwp⟩
    rcases hwhead : w with _ | ⟨d, w'⟩
    · exact absurd hwhead hw
    · rw [hwhead] at hwp
      have hd : goIsSpace d = false := by
        have := hwp d (List.mem_cons_self d w')
        simp [notSpace] at this
        exact this
      have hw'p : ∀ c ∈ w', notSpace c = true :=
        fun c hc => hwp c (List.mem_cons_of_mem d hc)
      rcases L' with _ | ⟨x, ws⟩
      · show goFields (d :: w') = [d :: w']
        rw [goFields_cons_word d w' hd,
          takeWhile_eq_self_of_all notSpace w' hw'p,
          dropWhile_eq_nil_of_all notSpace w' hw'p]
        rfl
      · show goFields ((d :: w') ++ ' ' :: joinSp (x :: ws)) = (d :: w') :: x :: ws
        rw [List.cons_append, goFields_cons_word d (w' ++ ' ' :: joinSp (x :: ws)) hd]
        have hsp : notSpace ' ' = false := by decide
        have h1 : (w' ++ ' ' :: joinSp (x :: ws)).takeWhile notSpace = w' := by
          rw [takeWhile_append_all notSpace w' _ hw'p, List.takeWhile_cons, hsp]
          simp
        have h2 : (w' ++ ' ' :: joinSp (x :: ws)).dropWhile notSpace =
            ' ' :: joinSp (x :: ws) := by
          rw [dropWhile_append_all notSpace w' _ hw'p, List.dropWhile_cons, hsp]
          simp
        rw [h1, h2, goFields_cons_space ' ' _ (by decide),
          ih fun v hv => h v (List.mem_cons_of_mem w hv)]

theorem extractTitleL_normal (body : List Char) :
    joinSp (goFields (trimSpace (extractTitleL body))) = extractTitleL body := by
  unfold extractTitleL
  rcases h1 : strIndex ("<title>".toList) (body.map Char.toLower) with _ | idx
  · simp only [h1]
    rfl
  · simp only [h1]
    rcases h2 : strIndex ("</title>".toList)
        ((body.map Char.toLower).drop (idx + 7)) with _ | stop
    · simp only [h2]
      rfl
    · simp only [h2]
      rw [goFields_trimSpace, goFields_joinSp _
        (mem_goFields (trimSpace ((body.drop (idx + 7)).take stop)))]

/-- C7 counterexample: title extraction is not idempotent: applied to the body
title-open Foo title-close it yields Foo, but applied again to its own result
Foo (which carries no title tags) it yields the empty string. -/
theorem c7_counterexample :
    extractTitle (extractTitle "<title>Foo</title>") ≠
      extractTitle "<title>Foo</title>" := by
  decide

/-- C7 amended: title extraction is whitespace-normalizing rather than
idempotent: its result is a fixed point of the trim-and-collapse whitespace
normalisation it applies, so for every body, normalizeWS (extractTitle b) =
extractTitle b (re-extracting from the bare result instead yields the empty
string, since extraction strips the title tags). -/
theorem c7_amended_extract_normalized (body : String) :
    normalizeWS (extractTitle body) = extractTitle body := by
  unfold normalizeWS extractTitle
  exact congrArg String.mk (extractTitleL_normal body.toList)

/-- C6: title extraction on the body TITLE-open two-spaces Foo newline space
Bar two-spaces TITLE-close (uppercase tags, so matched case-insensitively)
trims and collapses the internal whitespace run and yields Foo Bar; a body
with no title-open tag yields the empty title; and with the title flag
enabled an empty title is rendered as a dash in the output line. -/
theorem c6_title_extraction :
    extractTitle "<TITLE>  Foo\n Bar  </TITLE>" = "Foo Bar" ∧
    (∀ body : String, hasTitleTag body = false → extractTitle body = "") ∧
    (∀ (url : String) (r : probeResult), r.title = "" →
      formatOutput url r false false true = url ++ " [-]") := by
  refine ⟨by decide, ?_, ?_⟩
  · intro body h
    unfold hasTitleTag at h
    rcases ho : strIndex ("<title>".toList) (body.toList.map Char.toLower)
      with _ | v
    · unfold extractTitle extractTitleL
      simp only [ho]
    · rw [ho] at h
      simp at h
  · intro url r h
    simp [formatOutput, h, String.append_assoc]

/-- Closed instance of c6_title_extraction: a body without a title tag
extracts to the empty title, and the empty title of the zero probeResult is
rendered as a dash when only the title flag is on. -/
theorem c6_title_extraction_witness :
    extractTitle "plain body" = "" ∧
    formatOutput "http://example.com" zeroProbeResult false false true =
      "http://example.com [-]" := by
  have h := c6_title_extraction
  exact ⟨h.2.1 "plain body" (by decide),
    h.2.2 "http://example.com" zeroProbeResult rfl⟩

example : extractTitle "no tags here" = "" := by decide
example : extractTitle "<title>Foo</title>" = "Foo" := by decide
example : extractTitle "Foo" = "" := by decide
example : expandProbe "example.com" "bogus" = [] := by decide
example : expandProbe "example.com" "a:b:c" = [(Chan.http, "example.com:b:c")] := by decide
example : expandProbe "example.com" "https:8443" = [(Chan.https, "example.com:8443")] := by decide
example : expandProbe "example.com" "HTTPS:8443" = [(Chan.https, "example.com:8443")] := by decide
example : expandProbe "example.com" "http:81" = [(Chan.http, "example.com:81")] := by decide
